import Mathlib

/-
Verification of the doc-processor repository's workflow data layer.

Shallow embedding of:
  - src/web/convex/workflows.ts      (workflow + execution CRUD mutations/queries)
  - src/web/convex/schema.ts         (table shapes)
  - documents module (documents CRUD with bypass_auth)
  - src/web/src/components/workflow/useWorkflows.ts (client validateWorkflow wrapper)
  - the invoice auto-routing decisions of the document route and the upload page
  - the workflow validator (modelled from the spec: its implementation lives in
    the external FastAPI backend, not in this repository's src tree)

Conventions of the embedding:
  - A Convex handler is a pure function taking the caller's identity
    (`Option String`, the Clerk subject; `none` = unauthenticated), the current
    clock reading (`Nat`, a monotone stand-in for `new Date().toISOString()`),
    the table contents, and the argument record; it returns `Except ConvexError`
    of the handler's result.  A thrown JS `Error` is an `.error` value; Convex
    rolls back the transaction on throw, so a thrown mutation leaves the table
    unchanged.
  - Tables are association lists `List (Nat × row)` keyed by document id;
    `ctx.db.get`, `ctx.db.patch`, `ctx.db.delete`, `ctx.db.insert` become
    `dbGet`, `dbReplace` (of the fully merged row), `dbDelete`, and consing a
    fresh key.  `.order("desc")` is list reversal of insertion order.
  - `v.any()` payload blobs (input_data, output_data, attributes, metadata)
    are modelled as opaque `String`s.
  - JavaScript truthiness of an optional string field (`workflow.userId && ...`)
    is `jsTruthyStr`: present and non-empty.
-/

/-- JS truthiness of an optional string: `undefined` and `""` are falsy. -/
def jsTruthyStr : Option String → Bool
  | none => false
  | some s => !(s == "")

/-- Errors thrown by the Convex handlers (`throw new Error(...)`). -/
inductive ConvexError
  | notAuthenticated
  | notFound
  | accessDenied
deriving DecidableEq, Repr

/-- Embeds `getCurrentUser` of workflows.ts: throws when no identity, else
returns `identity.subject`. -/
def getCurrentUser (identity : Option String) : Except ConvexError String :=
  match identity with
  | none => .error .notAuthenticated
  | some s => .ok s

/-- Embeds `getCurrentUserOptional`: `identity?.subject`. -/
def getCurrentUserOptional (identity : Option String) : Option String :=
  identity

/-- A table is an association list from document id to row. -/
def Db (α : Type) : Type := List (Nat × α)

/-- Embeds `ctx.db.get`. -/
def dbGet {α : Type} (db : Db α) (id : Nat) : Option α :=
  (List.find? (fun kv => kv.1 == id) db).map (fun kv => kv.2)

/-- Embeds `ctx.db.patch` applied as replacement by the already-merged row. -/
def dbReplace {α : Type} (db : Db α) (id : Nat) (a : α) : Db α :=
  List.map (fun kv => if kv.1 == id then (id, a) else kv) db

/-- Embeds `ctx.db.delete`. -/
def dbDelete {α : Type} (db : Db α) (id : Nat) : Db α :=
  List.filter (fun kv => !(kv.1 == id)) db

/-- All rows of a table in `.order("desc")` (newest first: reverse of
insertion order). -/
def dbRowsDesc {α : Type} (db : Db α) : List α :=
  (List.map (fun kv : Nat × α => kv.2) db).reverse

/-- A workflow node as stored inside a definition blob (id + type are all the
validator and the claims consume; position/data are presentation-only). -/
structure WfNode where
  id : String
  type : String
deriving DecidableEq, Repr

/-- A workflow edge: directed source → target by node id. -/
structure WfEdge where
  source : String
  target : String
deriving DecidableEq, Repr

/-- The `definition` blob of a workflow row: nodes + edges. -/
structure WfDef where
  nodes : List WfNode
  edges : List WfEdge
deriving DecidableEq, Repr

/-- A row of the `workflows` table (schema.ts lines 37-45). -/
structure WorkflowRow where
  name : String
  description : Option String
  definition : WfDef
  is_active : Bool
  created_at : Nat
  updated_at : Nat
  userId : Option String
deriving DecidableEq, Repr

/-- Status literals of the `workflow_executions` table. -/
inductive ExecStatus
  | pending
  | running
  | completed
  | failed
deriving DecidableEq, Repr

/-- A row of the `workflow_executions` table (schema.ts lines 47-56). -/
structure ExecutionRow where
  workflow_id : Nat
  status : ExecStatus
  input_data : Option String
  output_data : Option String
  error_message : Option String
  started_at : Nat
  completed_at : Option Nat
  userId : Option String
deriving DecidableEq, Repr

/-- Arguments of the `workflows.list` query. -/
structure WfListArgs where
  is_active : Option Bool
deriving DecidableEq, Repr

/-- Embeds the `list` query of workflows.ts (lines 18-38): optional identity;
when the subject is truthy the rows are filtered to the caller's userId; the
optional `is_active` filter applies in either case. -/
def workflowsList (identity : Option String) (db : Db WorkflowRow)
    (args : WfListArgs) : List WorkflowRow :=
  let userId := getCurrentUserOptional identity
  let rows := dbRowsDesc db
  let rows := if jsTruthyStr userId then
      List.filter (fun w => w.userId == userId) rows
    else rows
  match args.is_active with
  | none => rows
  | some b => List.filter (fun w => w.is_active == b) rows

/-- Embeds the `get` query of workflows.ts (lines 41-57). -/
def workflowsGet (identity : Option String) (db : Db WorkflowRow) (id : Nat) :
    Except ConvexError WorkflowRow := do
  let userId ← getCurrentUser identity
  match dbGet db id with
  | none => .error .notFound
  | some w =>
    if jsTruthyStr w.userId && !(w.userId == some userId) then
      .error .accessDenied
    else
      .ok w

/-- Arguments of the `workflows.create` mutation. -/
structure WfCreateArgs where
  name : String
  description : Option String
  definition : WfDef
  is_active : Option Bool
deriving DecidableEq, Repr

/-- Embeds the `create` mutation of workflows.ts (lines 60-81); `newId` is the
id assigned by `ctx.db.insert`. -/
def workflowsCreate (identity : Option String) (now : Nat)
    (db : Db WorkflowRow) (args : WfCreateArgs) (newId : Nat) :
    Except ConvexError (Db WorkflowRow × Nat) := do
  let userId ← getCurrentUser identity
  let row : WorkflowRow :=
    { name := args.name
      description := args.description
      definition := args.definition
      is_active := args.is_active.getD true
      created_at := now
      updated_at := now
      userId := some userId }
  .ok ((newId, row) :: db, newId)

/-- Arguments of the `workflows.update` mutation. -/
structure WfUpdateArgs where
  name : Option String
  description : Option String
  definition : Option WfDef
  is_active : Option Bool
deriving DecidableEq, Repr

/-- The row produced by `ctx.db.patch` in `workflows.update`: `updated_at` is
always refreshed; each other field only when supplied. -/
def applyWfPatch (w : WorkflowRow) (args : WfUpdateArgs) (now : Nat) :
    WorkflowRow :=
  { w with
    updated_at := now
    name := args.name.getD w.name
    description := if args.description.isSome then args.description
      else w.description
    definition := args.definition.getD w.definition
    is_active := args.is_active.getD w.is_active }

/-- Embeds the `update` mutation of workflows.ts (lines 84-118). -/
def workflowsUpdate (identity : Option String) (now : Nat)
    (db : Db WorkflowRow) (id : Nat) (args : WfUpdateArgs) :
    Except ConvexError (Db WorkflowRow × Nat) := do
  let userId ← getCurrentUser identity
  match dbGet db id with
  | none => .error .notFound
  | some w =>
    if jsTruthyStr w.userId && !(w.userId == some userId) then
      .error .accessDenied
    else
      .ok (dbReplace db id (applyWfPatch w args now), id)

/-- The workflows table after an `update` call: Convex rolls the transaction
back on throw, so an error leaves the table as it was. -/
def dbAfterWorkflowsUpdate (identity : Option String) (now : Nat)
    (db : Db WorkflowRow) (id : Nat) (args : WfUpdateArgs) : Db WorkflowRow :=
  match workflowsUpdate identity now db id args with
  | .ok (db2, _) => db2
  | .error _ => db

/-- Embeds the `remove` mutation of workflows.ts (lines 121-138); the `Bool`
result is the `{ success: true }` payload. -/
def workflowsRemove (identity : Option String) (db : Db WorkflowRow)
    (id : Nat) : Except ConvexError (Db WorkflowRow × Bool) := do
  let userId ← getCurrentUser identity
  match dbGet db id with
  | none => .error .notFound
  | some w =>
    if jsTruthyStr w.userId && !(w.userId == some userId) then
      .error .accessDenied
    else
      .ok (dbDelete db id, true)

/-- The workflows table after a `remove` call (rollback on throw). -/
def dbAfterWorkflowsRemove (identity : Option String) (db : Db WorkflowRow)
    (id : Nat) : Db WorkflowRow :=
  match workflowsRemove identity db id with
  | .ok (db2, _) => db2
  | .error _ => db

/-- Arguments of the `workflows.createExecution` mutation. -/
structure CreateExecArgs where
  input_data : Option String
  status : Option ExecStatus
deriving DecidableEq, Repr

/-- Embeds the `createExecution` mutation of workflows.ts (lines 184-213):
requires auth, checks ownership of the parent workflow, then inserts
`{ workflow_id, status: args.status ?? "pending", input_data,
started_at: now, userId }`. -/
def createExecution (identity : Option String) (now : Nat)
    (wfDb : Db WorkflowRow) (execDb : Db ExecutionRow)
    (workflow_id : Nat) (args : CreateExecArgs) (newId : Nat) :
    Except ConvexError (Db ExecutionRow × Nat) := do
  let userId ← getCurrentUser identity
  match dbGet wfDb workflow_id with
  | none => .error .notFound
  | some w =>
    if jsTruthyStr w.userId && !(w.userId == some userId) then
      .error .accessDenied
    else
      let row : ExecutionRow :=
        { workflow_id := workflow_id
          status := args.status.getD .pending
          input_data := args.input_data
          output_data := none
          error_message := none
          started_at := now
          completed_at := none
          userId := some userId }
      .ok ((newId, row) :: execDb, newId)

/-- Arguments of the `workflows.updateExecution` mutation. -/
structure UpdateExecArgs where
  status : Option ExecStatus
  output_data : Option String
  error_message : Option String
  completed_at : Option Nat
deriving DecidableEq, Repr

/-- The row produced by `ctx.db.patch` in `updateExecution`: each field is
overwritten exactly when supplied; nothing else changes. -/
def applyExecPatch (e : ExecutionRow) (args : UpdateExecArgs) : ExecutionRow :=
  { e with
    status := args.status.getD e.status
    output_data := if args.output_data.isSome then args.output_data
      else e.output_data
    error_message := if args.error_message.isSome then args.error_message
      else e.error_message
    completed_at := if args.completed_at.isSome then args.completed_at
      else e.completed_at }

/-- Embeds the `updateExecution` mutation of workflows.ts (lines 216-246). -/
def updateExecution (identity : Option String) (db : Db ExecutionRow)
    (id : Nat) (args : UpdateExecArgs) :
    Except ConvexError (Db ExecutionRow × Nat) := do
  let userId ← getCurrentUser identity
  match dbGet db id with
  | none => .error .notFound
  | some e =>
    if jsTruthyStr e.userId && !(e.userId == some userId) then
      .error .accessDenied
    else
      .ok (dbReplace db id (applyExecPatch e args), id)

/-- Status literals of the `documents` table. -/
inductive DocStatus
  | processing
  | processed
  | failed
deriving DecidableEq, Repr

/-- An extracted entity inside a document's processing result; `attributes`
is a `v.any()` blob, modelled opaquely. -/
structure ExtractedEntity where
  extraction_class : String
  extraction_text : String
  attributes : String
  start_char : Option Nat
  end_char : Option Nat
deriving DecidableEq, Repr

/-- The `processing_result` object of a document row. -/
structure ProcessingResult where
  ocr_text : String
  extracted_entities : List ExtractedEntity
  extraction_metadata : String
  processing_stats : String
deriving DecidableEq, Repr

/-- A row of the `documents` table (schema.ts lines 15-35); `file_size_mb` is
a JS number, modelled as a rational. -/
structure DocumentRow where
  filename : String
  status : DocStatus
  timestamp : Nat
  file_size_mb : Rat
  content_type : String
  userId : Option String
  processing_result : Option ProcessingResult
  error_message : Option String
deriving DecidableEq, Repr

/-- Arguments of the documents `update` mutation (the authenticated variant
with `bypass_auth`). -/
structure DocUpdateArgs where
  processing_result : Option ProcessingResult
  status : Option DocStatus
  error_message : Option String
  bypass_auth : Option Bool
deriving DecidableEq, Repr

/-- The row produced by `ctx.db.patch` in documents `update`: `timestamp` is
always refreshed; the other fields only when supplied. -/
def applyDocPatch (doc : DocumentRow) (args : DocUpdateArgs) (now : Nat) :
    DocumentRow :=
  { doc with
    timestamp := now
    processing_result := if args.processing_result.isSome then
        args.processing_result
      else doc.processing_result
    status := args.status.getD doc.status
    error_message := if args.error_message.isSome then args.error_message
      else doc.error_message }

/-- Embeds the documents `update` mutation (bypass_auth variant, lines
104-155): optional identity; access is denied when `!args.bypass_auth` is
truthy-false, the caller subject is truthy, the document owner is truthy, and
the two differ; otherwise the patch is applied. -/
def documentsUpdate (identity : Option String) (now : Nat)
    (db : Db DocumentRow) (id : Nat) (args : DocUpdateArgs) :
    Except ConvexError (Db DocumentRow × Nat) :=
  let userId := getCurrentUserOptional identity
  match dbGet db id with
  | none => .error .notFound
  | some doc =>
    if !(args.bypass_auth == some true) && jsTruthyStr userId &&
        jsTruthyStr doc.userId && !(doc.userId == userId) then
      .error .accessDenied
    else
      .ok (dbReplace db id (applyDocPatch doc args now), id)

/-- The validator's report shape:
`{ is_valid, errors, warnings, node_count, edge_count }`. -/
structure ValidationReport where
  is_valid : Bool
  errors : List String
  warnings : List String
  node_count : Nat
  edge_count : Nat
deriving DecidableEq, Repr

/-- The fallback report built in the catch branch of the client-side
`validateWorkflow` wrapper (useWorkflows.ts lines 173-182). -/
def validateFallbackReport (d : WfDef) : ValidationReport :=
  { is_valid := false
    errors := ["Failed to validate workflow"]
    warnings := []
    node_count := d.nodes.length
    edge_count := d.edges.length }

/-- Outcome of the `fetch` to /api/workflows/validate as the wrapper observes
it: a response carrying its `ok` flag and parsed body, or a thrown error
(network failure / rejected promise). -/
inductive FetchOutcome
  | response (ok : Bool) (body : ValidationReport)
  | thrown
deriving DecidableEq, Repr

/-- Embeds the client `validateWorkflow` wrapper of useWorkflows.ts (lines
157-183): a non-ok response throws, every throw is caught and mapped to the
fallback report; an ok response's body is returned unchanged. -/
def validateWorkflowClient (d : WfDef) (outcome : FetchOutcome) :
    ValidationReport :=
  match outcome with
  | .response true body => body
  | .response false _ => validateFallbackReport d
  | .thrown => validateFallbackReport d

/-- The invoice-routing decision of the server-side document auto-router
(src/web/src/app/api/process/document/route.ts lines 108-170): forward to the
invoice endpoint when the detected type is invoice with confidence above 0.3,
else when the OCR text matches the invoice-keyword fallback (`kw`), else take
the general path. -/
def routeForwardsToInvoice (ty : String) (confidence : Rat) (kw : Bool) :
    Bool :=
  if ty == "invoice" && confidence > 3/10 then true
  else if kw then true
  else false

/-- The invoice-routing decision of the upload page's auto-detect path
(src/web/src/app/upload/page.tsx lines 141-152): the invoice endpoint is
chosen exactly when the detected type is invoice with confidence above
0.6. -/
def uploadForwardsToInvoice (ty : String) (confidence : Rat) : Bool :=
  ty == "invoice" && confidence > 6/10

/-- Modelled from the spec: the node ids of a definition. -/
def nodeIdsOf (d : WfDef) : List String :=
  List.map (fun n => n.id) d.nodes

/-- Modelled from the spec: one round of topological elimination — keep
exactly the ids that still have an incoming edge from a remaining id (a node
whose in-degree within the remainder is zero is removed). -/
def elimStep (edges : List WfEdge) (rem : List String) : List String :=
  List.filter
    (fun n => List.any edges (fun e => e.target == n && rem.contains e.source))
    rem

/-- Modelled from the spec: iterate the elimination a fixed number of
rounds. -/
def elimIter (edges : List WfEdge) : Nat → List String → List String
  | 0, rem => rem
  | k + 1, rem => elimIter edges k (elimStep edges rem)

/-- Modelled from the spec: the id universe the cycle check runs over — the
definition's node ids together with every edge endpoint (so a cycle anywhere
in the edge set is seen, even through a dangling id). -/
def cycleCheckUniverse (d : WfDef) : List String :=
  nodeIdsOf d ++ List.map (fun e => e.source) d.edges
    ++ List.map (fun e => e.target) d.edges

/-- Modelled from the spec: "the edge set must not contain a cycle (execution
requires a topological order; a cycle makes one impossible)".  The check is
Kahn-style: repeatedly discard ids of zero remaining in-degree; ids survive
all rounds exactly when a cycle exists among them. -/
def hasCycleB (d : WfDef) : Bool :=
  let start := cycleCheckUniverse d
  !(List.isEmpty (elimIter d.edges start.length start))

/-- Modelled from the spec: one round of forward reachability — add the
targets of edges leaving an already-reached id. -/
def reachStep (edges : List WfEdge) (seen : List String) : List String :=
  seen ++ List.map (fun e => e.target)
    (List.filter
      (fun e => seen.contains e.source && !(seen.contains e.target)) edges)

/-- Modelled from the spec: iterate forward reachability. -/
def reachIter (edges : List WfEdge) : Nat → List String → List String
  | 0, seen => seen
  | k + 1, seen => reachIter edges k (reachStep edges seen)

/-- Modelled from the spec: the ids reachable from some document-input node
by following edges forward. -/
def reachableFromInputs (d : WfDef) : List String :=
  reachIter d.edges d.nodes.length
    (List.map (fun n => n.id)
      (List.filter (fun n => n.type == "document-input") d.nodes))

/-- Modelled from the spec: the node types that consume file-derived input
(every processing type other than document-input), used by the
MissingDocumentInput check. -/
def fileConsumingTypes : List String :=
  ["ocr-processor", "ai-extractor", "data-validator", "export-data"]

/-- Modelled from the spec: the Workflow Validator (spec section 4.2), whose
implementation lives in the external FastAPI backend and is not part of this
repository's src tree.  Errors: DanglingEdge (an edge referencing a missing
node id), CyclicGraph (a cycle in the edge set), MissingDocumentInput (a
file-consuming node with no document-input node present).  Warnings:
UnreachableNode (a non-input node not reachable from any document-input
node), MissingExportData (no export-data node).  `is_valid` is the
conjunction of the error-level checks; warnings never flip it. -/
def validateWorkflowDef (d : WfDef) : ValidationReport :=
  let nodeIds := nodeIdsOf d
  let danglingE :=
    if List.any d.edges
        (fun e => !(nodeIds.contains e.source) || !(nodeIds.contains e.target))
    then ["DanglingEdge"] else []
  let cyclicE := if hasCycleB d then ["CyclicGraph"] else []
  let missingE :=
    if List.any d.nodes (fun n => fileConsumingTypes.contains n.type) &&
        !(List.any d.nodes (fun n => n.type == "document-input"))
    then ["MissingDocumentInput"] else []
  let reach := reachableFromInputs d
  let unreachableW :=
    if List.any d.nodes
        (fun n => !(n.type == "document-input") && !(reach.contains n.id))
    then ["UnreachableNode"] else []
  let exportW :=
    if !(List.any d.nodes (fun n => n.type == "export-data"))
    then ["MissingExportData"] else []
  { is_valid := List.isEmpty (danglingE ++ cyclicE ++ missingE)
    errors := danglingE ++ cyclicE ++ missingE
    warnings := unreachableW ++ exportW
    node_count := d.nodes.length
    edge_count := d.edges.length }

/-- The edge relation of a definition's edge set, as a step predicate on node
ids. -/
def EdgeRel (edges : List WfEdge) (a b : String) : Prop :=
  WfEdge.mk a b ∈ edges

/-- A cycle in an edge set: a walk of length at least two whose consecutive
elements are edges and whose first and last elements coincide. -/
def CycleIn (edges : List WfEdge) (p : List String) : Prop :=
  2 ≤ p.length ∧ List.Chain' (EdgeRel edges) p ∧ p.head? = p.getLast?

/-- A tiny valid two-node definition used by the concrete examples. -/
def sampleDef : WfDef :=
  { nodes := [{ id := "n1", type := "document-input" },
              { id := "n2", type := "export-data" }]
    edges := [{ source := "n1", target := "n2" }] }

/-- A two-node cyclic definition used by the concrete examples. -/
def cycleDef : WfDef :=
  { nodes := [{ id := "a", type := "ocr-processor" },
              { id := "b", type := "ai-extractor" }]
    edges := [{ source := "a", target := "b" },
              { source := "b", target := "a" }] }

/-- A workflow row owned by alice, used by the concrete examples. -/
def wfAlice : WorkflowRow :=
  { name := "wf"
    description := none
    definition := sampleDef
    is_active := true
    created_at := 0
    updated_at := 0
    userId := some "alice" }

/-- A document row owned by bob, used by the concrete examples. -/
def docBob : DocumentRow :=
  { filename := "f.pdf"
    status := .processing
    timestamp := 0
    file_size_mb := 1
    content_type := "application/pdf"
    userId := some "bob"
    processing_result := none
    error_message := none }

/-- A documents-update payload with bypass_auth set, used by the concrete
examples. -/
def docArgsBypass : DocUpdateArgs :=
  { processing_result := none
    status := some .processed
    error_message := none
    bypass_auth := some true }

/-- A terminal (completed) execution row owned by alice, used by the concrete
examples. -/
def execCompletedAlice : ExecutionRow :=
  { workflow_id := 0
    status := .completed
    input_data := none
    output_data := some "out"
    error_message := none
    started_at := 0
    completed_at := some 5
    userId := some "alice" }

/-
Helper lemmas.
-/

lemma chainPred {α : Type} {R : α → α → Prop} (x : α) (xs : List α)
    (h : List.Chain' R (x :: xs)) : ∀ n ∈ xs, ∃ q ∈ x :: xs, R q n := by
  induction xs generalizing x with
  | nil => intro n hn; cases hn
  | cons y ys ih =>
    rw [List.chain'_cons] at h
    intro n hn
    rcases List.mem_cons.mp hn with rfl | hn2
    · exact ⟨x, List.mem_cons_self x _, h.1⟩
    · rcases ih y h.2 n hn2 with ⟨q, hq, hr⟩
      exact ⟨q, List.mem_cons_of_mem x hq, hr⟩

lemma cyclePred {edges : List WfEdge} {p : List String}
    (h : CycleIn edges p) : ∀ n ∈ p, ∃ q ∈ p, EdgeRel edges q n := by
  obtain ⟨hlen, hchain, hclosed⟩ := h
  match p, hlen with
  | x :: y :: ys, _ =>
    intro n hn
    rcases List.mem_cons.mp hn with rfl | hn2
    · have hne : y :: ys ≠ [] := List.cons_ne_nil y ys
      have hlast : (n :: y :: ys).getLast? =
          some ((n :: y :: ys).getLast (List.cons_ne_nil n _)) :=
        List.getLast?_eq_getLast _ _
      rw [hlast] at hclosed
      simp only [List.head?_cons, Option.some.injEq] at hclosed
      have hmem : (n :: y :: ys).getLast (List.cons_ne_nil n _) ∈ y :: ys := by
        rw [List.getLast_cons hne]
        exact List.getLast_mem hne
      rw [← hclosed] at hmem
      rcases chainPred n (y :: ys) hchain n hmem with ⟨q, hq, hr⟩
      exact ⟨q, hq, hr⟩
    · rcases chainPred x (y :: ys) hchain n hn2 with ⟨q, hq, hr⟩
      exact ⟨q, hq, hr⟩

lemma elimStep_keeps {edges : List WfEdge} {c rem : List String}
    (hpred : ∀ n ∈ c, ∃ q ∈ c, EdgeRel edges q n)
    (hsub : ∀ n ∈ c, n ∈ rem) :
    ∀ n ∈ c, n ∈ elimStep edges rem := by
  intro n hn
  rcases hpred n hn with ⟨q, hq, hr⟩
  unfold elimStep
  rw [List.mem_filter]
  refine ⟨hsub n hn, ?_⟩
  rw [List.any_eq_true]
  refine ⟨WfEdge.mk q n, hr, ?_⟩
  simp only [beq_self_eq_true, Bool.true_and]
  exact List.elem_eq_true_of_mem (hsub q hq)

lemma elimIter_keeps {edges : List WfEdge} {c : List String}
    (hpred : ∀ n ∈ c, ∃ q ∈ c, EdgeRel edges q n) :
    ∀ (k : Nat) (rem : List String), (∀ n ∈ c, n ∈ rem) →
      ∀ n ∈ c, n ∈ elimIter edges k rem := by
  intro k
  induction k with
  | zero => intro rem hsub; exact hsub
  | succ k ih =>
    intro rem hsub
    exact ih (elimStep edges rem) (elimStep_keeps hpred hsub)

lemma hasCycleB_of_cycle {d : WfDef} {p : List String}
    (h : CycleIn d.edges p) : hasCycleB d = true := by
  have hpred := cyclePred h
  have hne : p ≠ [] := by
    rcases h with ⟨hl, _, _⟩
    intro hp
    rw [hp] at hl
    simp at hl
  rcases List.exists_mem_of_ne_nil p hne with ⟨n, hn⟩
  have hstart : ∀ m ∈ p, m ∈ cycleCheckUniverse d := by
    intro m hm
    rcases hpred m hm with ⟨q, _, hr⟩
    unfold cycleCheckUniverse
    exact List.mem_append.mpr
      (Or.inr (List.mem_map.mpr ⟨WfEdge.mk q m, hr, rfl⟩))
  have hkeep := elimIter_keeps hpred (cycleCheckUniverse d).length
    (cycleCheckUniverse d) hstart n hn
  have hne2 : elimIter d.edges (cycleCheckUniverse d).length
      (cycleCheckUniverse d) ≠ [] := List.ne_nil_of_mem hkeep
  unfold hasCycleB
  simpa using hne2

lemma dbGet_dbReplace {α : Type} {db : Db α} {id : Nat} {w : α} (a : α)
    (h : dbGet db id = some w) : dbGet (dbReplace db id a) id = some a := by
  induction db with
  | nil => simp [dbGet] at h
  | cons kv rest ih =>
    by_cases hk : kv.1 = id
    · simp [dbGet, dbReplace, List.find?, hk]
    · have hne : (kv.1 == id) = false := by
        simpa using hk
      simp only [dbGet, dbReplace, List.map_cons, hne, if_neg,
        Bool.false_eq_true, not_false_eq_true, List.find?_cons_of_neg] at h ⊢
      exact ih h

/-
Claim theorems.
-/

/-- C6: for every workflow definition whose edge set contains a cycle, the
validator returns is_valid = false and its errors list contains CyclicGraph.
(The validator is modelled from the spec; its implementation lives in the
external FastAPI backend, outside this repository's src tree.) -/
theorem validate_cyclic_detected (d : WfDef) (p : List String)
    (h : CycleIn d.edges p) :
    (validateWorkflowDef d).is_valid = false ∧
      "CyclicGraph" ∈ (validateWorkflowDef d).errors := by
  have hc : hasCycleB d = true := hasCycleB_of_cycle h
  have hmem : "CyclicGraph" ∈ (validateWorkflowDef d).errors := by
    simp only [validateWorkflowDef, hc, if_true]
    simp
  refine ⟨?_, hmem⟩
  have hval : (validateWorkflowDef d).is_valid
      = List.isEmpty (validateWorkflowDef d).errors := rfl
  rw [hval]
  have hne := List.ne_nil_of_mem hmem
  simpa using hne

/-- Witness for C6: the validator rejects the concrete two-node cyclic
definition `cycleDef`, reporting CyclicGraph. -/
theorem validate_cyclic_detected_witness :
    (validateWorkflowDef cycleDef).is_valid = false ∧
      "CyclicGraph" ∈ (validateWorkflowDef cycleDef).errors :=
  validate_cyclic_detected cycleDef ["a", "b", "a"]
    ⟨by decide,
     List.chain'_cons.mpr
       ⟨show WfEdge.mk "a" "b" ∈ cycleDef.edges by decide,
        List.chain'_cons.mpr
          ⟨show WfEdge.mk "b" "a" ∈ cycleDef.edges by decide,
           List.chain'_singleton "a"⟩⟩,
     rfl⟩

/-- C7: the two invoice auto-routing code paths disagree — the server route
forwards on detected type invoice with confidence above 0.3, the upload page
only above 0.6, so at confidence 1/2 (inside the gap (0.3, 0.6]) the route
forwards to the invoice endpoint while the upload flow does not, whatever the
keyword fallback observes. -/
theorem invoice_threshold_mismatch :
    (3 : Rat)/10 < 1/2 ∧ (1 : Rat)/2 ≤ 6/10 ∧
    routeForwardsToInvoice "invoice" (1/2) false = true ∧
    routeForwardsToInvoice "invoice" (1/2) true = true ∧
    uploadForwardsToInvoice "invoice" (1/2) = false := by
  refine ⟨by norm_num, by norm_num, ?_, ?_, ?_⟩
  · simp only [routeForwardsToInvoice]
    norm_num
  · simp only [routeForwardsToInvoice]
    norm_num
  · simp only [uploadForwardsToInvoice]
    norm_num

/-- C10: the client-side validateWorkflow wrapper never throws — a non-ok
response or a thrown fetch maps to the fallback report (is_valid false,
errors = [Failed to validate workflow], no warnings, counts from the input
definition), and an ok response's report is returned unchanged. -/
theorem validateWorkflow_fallback (d : WfDef) (body : ValidationReport) :
    validateWorkflowClient d (.response true body) = body ∧
    validateWorkflowClient d (.response false body) = validateFallbackReport d ∧
    validateWorkflowClient d .thrown = validateFallbackReport d ∧
    (validateFallbackReport d).is_valid = false ∧
    (validateFallbackReport d).errors = ["Failed to validate workflow"] ∧
    (validateFallbackReport d).warnings = [] ∧
    (validateFallbackReport d).node_count = d.nodes.length ∧
    (validateFallbackReport d).edge_count = d.edges.length :=
  ⟨rfl, rfl, rfl, rfl, rfl, rfl, rfl, rfl⟩

/-- C1 counterexample: `updateExecution` accepts a backward transition out of
a terminal status — on a record in status completed, an owner's update with
status pending succeeds and the stored record changes to pending, refuting
both the forward-only and the terminal-immutability halves of the claim. -/
theorem updateExecution_backward_counterexample :
    updateExecution (some "alice") [(1, execCompletedAlice)] 1
        { status := some .pending, output_data := none,
          error_message := none, completed_at := none }
      = .ok ([(1, { execCompletedAlice with status := .pending })], 1) := by
  rfl

/-- C1 amended: `updateExecution` enforces no status ordering at all — subject
only to the authentication, existence and ownership checks, it overwrites the
record with exactly the supplied fields, whatever the current status
(terminal or not); the stored status becomes the supplied one, defaulting to
the old value when absent. -/
theorem updateExecution_no_transition_guard
    (u : String) (db : Db ExecutionRow) (id : Nat) (e : ExecutionRow)
    (args : UpdateExecArgs)
    (he : dbGet db id = some e) (hown : e.userId = some u) :
    updateExecution (some u) db id args
      = .ok (dbReplace db id (applyExecPatch e args), id) ∧
    (applyExecPatch e args).status = args.status.getD e.status := by
  constructor
  · simp only [updateExecution, getCurrentUser, Except.bind, bind, he, hown]
    simp
  · rfl

/-- Witness for C1's amended theorem: the completed record owned by alice is
updated to pending by its owner. -/
theorem updateExecution_no_transition_guard_witness :
    dbGet [(1, execCompletedAlice)] 1 = some execCompletedAlice ∧
    (updateExecution (some "alice") [(1, execCompletedAlice)] 1
        { status := some .pending, output_data := none,
          error_message := none, completed_at := none }
      = .ok (dbReplace [(1, execCompletedAlice)] 1
          (applyExecPatch execCompletedAlice
            { status := some .pending, output_data := none,
              error_message := none, completed_at := none }), 1) ∧
     (applyExecPatch execCompletedAlice
        { status := some .pending, output_data := none,
          error_message := none, completed_at := none }).status
       = (some ExecStatus.pending).getD execCompletedAlice.status) :=
  ⟨rfl,
   updateExecution_no_transition_guard "alice" [(1, execCompletedAlice)] 1
     execCompletedAlice _ rfl rfl⟩

/-- C4 counterexample: a reachable execution record violates the claimed
invariant — createExecution (defaulting to pending) followed by an
updateExecution that supplies only output_data yields a stored record with
status pending and output_data present. -/
theorem output_data_pending_counterexample :
    ((do
      let r1 ← createExecution (some "alice") 10 [(0, wfAlice)] [] 0
          { input_data := none, status := none } 1
      updateExecution (some "alice") r1.1 r1.2
          { status := none, output_data := some "partial",
            error_message := none, completed_at := none }) :
        Except ConvexError (Db ExecutionRow × Nat))
      = .ok
          ([(1, { workflow_id := 0, status := .pending, input_data := none,
                  output_data := some "partial", error_message := none,
                  started_at := 10, completed_at := none,
                  userId := some "alice" })], 1) := by
  rfl

/-- C4 amended: the code ties neither field to the status — at creation
output_data and error_message are absent whatever status is chosen, and
updateExecution sets each of them exactly when supplied, regardless of the
record's current or supplied status. -/
theorem exec_fields_independent_of_status
    (u : String) (db : Db ExecutionRow) (id : Nat) (e : ExecutionRow)
    (args : UpdateExecArgs)
    (he : dbGet db id = some e) (hown : e.userId = some u) :
    (updateExecution (some u) db id args
        = .ok (dbReplace db id (applyExecPatch e args), id) ∧
      (applyExecPatch e args).output_data
        = (if args.output_data.isSome then args.output_data
           else e.output_data) ∧
      (applyExecPatch e args).error_message
        = (if args.error_message.isSome then args.error_message
           else e.error_message)) ∧
    (∀ (now : Nat) (wfDb : Db WorkflowRow) (execDb : Db ExecutionRow)
        (wid nid : Nat) (cargs : CreateExecArgs) (w : WorkflowRow),
      dbGet wfDb wid = some w → w.userId = some u →
      ∃ row : ExecutionRow,
        createExecution (some u) now wfDb execDb wid cargs nid
          = .ok ((nid, row) :: execDb, nid) ∧
        row.output_data = none ∧ row.error_message = none) := by
  refine ⟨⟨?_, rfl, rfl⟩, ?_⟩
  · simp only [updateExecution, getCurrentUser, Except.bind, bind, he, hown]
    simp
  · intro now wfDb execDb wid nid cargs w hw hwown
    refine ⟨{ workflow_id := wid, status := cargs.status.getD .pending,
              input_data := cargs.input_data, output_data := none,
              error_message := none, started_at := now,
              completed_at := none, userId := some u }, ?_, rfl, rfl⟩
    simp only [createExecution, getCurrentUser, Except.bind, bind, hw, hwown]
    simp

/-- Witness for C4's amended theorem: instantiated on the pending record
produced in the counterexample scenario. -/
theorem exec_fields_independent_of_status_witness :
    dbGet [(1, execCompletedAlice)] 1 = some execCompletedAlice ∧
    ((updateExecution (some "alice") [(1, execCompletedAlice)] 1
        { status := none, output_data := some "partial",
          error_message := none, completed_at := none }
        = .ok (dbReplace [(1, execCompletedAlice)] 1
            (applyExecPatch execCompletedAlice
              { status := none, output_data := some "partial",
                error_message := none, completed_at := none }), 1) ∧
      (applyExecPatch execCompletedAlice
          { status := none, output_data := some "partial",
            error_message := none, completed_at := none }).output_data
        = (if (some "partial" : Option String).isSome then some "partial"
           else execCompletedAlice.output_data) ∧
      (applyExecPatch execCompletedAlice
          { status := none, output_data := some "partial",
            error_message := none, completed_at := none }).error_message
        = (if (none : Option String).isSome then none
           else execCompletedAlice.error_message)) ∧
    (∀ (now : Nat) (wfDb : Db WorkflowRow) (execDb : Db ExecutionRow)
        (wid nid : Nat) (cargs : CreateExecArgs) (w : WorkflowRow),
      dbGet wfDb wid = some w → w.userId = some "alice" →
      ∃ row : ExecutionRow,
        createExecution (some "alice") now wfDb execDb wid cargs nid
          = .ok ((nid, row) :: execDb, nid) ∧
        row.output_data = none ∧ row.error_message = none)) :=
  ⟨rfl,
   exec_fields_independent_of_status "alice" [(1, execCompletedAlice)] 1
     execCompletedAlice _ rfl rfl⟩

/-- C5 counterexample: createExecution accepts a caller-supplied status — the
owner creates an execution with status completed and the inserted record has
status completed, not pending. -/
theorem createExecution_status_override_counterexample :
    createExecution (some "alice") 10 [(0, wfAlice)] [] 0
        { input_data := none, status := some .completed } 1
      = .ok ([(1, { workflow_id := 0, status := .completed,
                    input_data := none, output_data := none,
                    error_message := none, started_at := 10,
                    completed_at := none, userId := some "alice" })], 1) := by
  rfl

/-- C5 amended: every successful createExecution call inserts a record whose
status is the supplied status argument, defaulting to pending when absent,
with started_at set to the creation clock and no completed_at, output_data or
error_message. -/
theorem createExecution_initial_record
    (u : String) (now : Nat) (wfDb : Db WorkflowRow) (execDb : Db ExecutionRow)
    (wid nid : Nat) (args : CreateExecArgs) (w : WorkflowRow)
    (hw : dbGet wfDb wid = some w) (hown : w.userId = some u) :
    createExecution (some u) now wfDb execDb wid args nid
      = .ok ((nid,
          { workflow_id := wid
            status := args.status.getD .pending
            input_data := args.input_data
            output_data := none
            error_message := none
            started_at := now
            completed_at := none
            userId := some u }) :: execDb, nid) := by
  simp only [createExecution, getCurrentUser, Except.bind, bind, hw, hown]
  simp

/-- Witness for C5's amended theorem: alice creates an execution on her
workflow with no status argument; the inserted record is pending with the
creation timestamp and no terminal fields. -/
theorem createExecution_initial_record_witness :
    dbGet [(0, wfAlice)] 0 = some wfAlice ∧
    createExecution (some "alice") 10 [(0, wfAlice)] [] 0
        { input_data := none, status := none } 1
      = .ok ((1,
          { workflow_id := 0
            status := (none : Option ExecStatus).getD .pending
            input_data := none
            output_data := none
            error_message := none
            started_at := 10
            completed_at := none
            userId := some "alice" }) :: [], 1) :=
  ⟨rfl,
   createExecution_initial_record "alice" 10 [(0, wfAlice)] [] 0 1
     { input_data := none, status := none } wfAlice rfl rfl⟩

/-- C2: per-owner access control on the workflow definition CRUD — for an
authenticated caller and an existing definition, get/update/remove reject
with access denied when the definition has an owner different from the
caller, leaving the table unchanged; with no owner they succeed for any
authenticated caller. -/
theorem workflow_crud_owner_access
    (u : String) (now : Nat) (db : Db WorkflowRow) (id : Nat)
    (w : WorkflowRow) (args : WfUpdateArgs)
    (hw : dbGet db id = some w) :
    ((∀ o : String, w.userId = some o → o ≠ "" → o ≠ u →
        workflowsGet (some u) db id = .error .accessDenied ∧
        workflowsUpdate (some u) now db id args = .error .accessDenied ∧
        dbAfterWorkflowsUpdate (some u) now db id args = db ∧
        workflowsRemove (some u) db id = .error .accessDenied ∧
        dbAfterWorkflowsRemove (some u) db id = db) ∧
     (w.userId = none →
        workflowsGet (some u) db id = .ok w ∧
        workflowsUpdate (some u) now db id args
          = .ok (dbReplace db id (applyWfPatch w args now), id) ∧
        workflowsRemove (some u) db id = .ok (dbDelete db id, true))) := by
  constructor
  · intro o ho hne hnu
    have hcond : (jsTruthyStr w.userId && !(w.userId == some u)) = true := by
      rw [ho]
      simp [jsTruthyStr, hne, hnu]
    have hget : workflowsGet (some u) db id = .error .accessDenied := by
      simp only [workflowsGet, getCurrentUser, Except.bind, bind, hw]
      simp [hcond]
    have hupd : workflowsUpdate (some u) now db id args
        = .error .accessDenied := by
      simp only [workflowsUpdate, getCurrentUser, Except.bind, bind, hw]
      simp [hcond]
    have hrem : workflowsRemove (some u) db id = .error .accessDenied := by
      simp only [workflowsRemove, getCurrentUser, Except.bind, bind, hw]
      simp [hcond]
    exact ⟨hget, hupd, by simp [dbAfterWorkflowsUpdate, hupd], hrem,
      by simp [dbAfterWorkflowsRemove, hrem]⟩
  · intro hnone
    have hcond : (jsTruthyStr w.userId && !(w.userId == some u)) = false := by
      rw [hnone]
      simp [jsTruthyStr]
    refine ⟨?_, ?_, ?_⟩
    · simp only [workflowsGet, getCurrentUser, Except.bind, bind, hw]
      simp [hcond]
    · simp only [workflowsUpdate, getCurrentUser, Except.bind, bind, hw]
      simp [hcond]
    · simp only [workflowsRemove, getCurrentUser, Except.bind, bind, hw]
      simp [hcond]

/-- Witness for C2: bob (authenticated) hits access denied on alice's
workflow, and any authenticated caller succeeds on an ownerless row. -/
theorem workflow_crud_owner_access_witness :
    dbGet [(1, wfAlice)] 1 = some wfAlice ∧
    (workflowsGet (some "bob") [(1, wfAlice)] 1 = .error .accessDenied ∧
     workflowsUpdate (some "bob") 10 [(1, wfAlice)] 1
         { name := some "x", description := none, definition := none,
           is_active := none } = .error .accessDenied ∧
     dbAfterWorkflowsUpdate (some "bob") 10 [(1, wfAlice)] 1
         { name := some "x", description := none, definition := none,
           is_active := none } = [(1, wfAlice)] ∧
     workflowsRemove (some "bob") [(1, wfAlice)] 1 = .error .accessDenied ∧
     dbAfterWorkflowsRemove (some "bob") [(1, wfAlice)] 1 = [(1, wfAlice)]) :=
  ⟨rfl,
   ((workflow_crud_owner_access "bob" 10 [(1, wfAlice)] 1 wfAlice
       { name := some "x", description := none, definition := none,
         is_active := none } rfl).1 "alice" rfl (by decide) (by decide))⟩

/-- C3: for a definition owned by the caller, update with a name-only payload
followed by get returns a row named x whose updated_at is strictly newer
(assuming the clock advanced past the previous updated_at) and whose
definition (nodes and edges) is unchanged; and every update payload refreshes
updated_at to the call-time clock. -/
theorem workflow_update_roundtrip
    (u : String) (now : Nat) (db : Db WorkflowRow) (id : Nat)
    (w : WorkflowRow)
    (hw : dbGet db id = some w) (hown : w.userId = some u)
    (hclock : w.updated_at < now) :
    ∃ w2 : WorkflowRow,
      workflowsUpdate (some u) now db id
          { name := some "x", description := none, definition := none,
            is_active := none }
        = .ok (dbReplace db id w2, id) ∧
      workflowsGet (some u) (dbReplace db id w2) id = .ok w2 ∧
      w2.name = "x" ∧
      w.updated_at < w2.updated_at ∧
      w2.definition = w.definition ∧
      (∀ args2 : WfUpdateArgs,
        workflowsUpdate (some u) now db id args2
          = .ok (dbReplace db id (applyWfPatch w args2 now), id) ∧
        (applyWfPatch w args2 now).updated_at = now) := by
  refine ⟨applyWfPatch w
      { name := some "x", description := none, definition := none,
        is_active := none } now, ?_, ?_, rfl, ?_, rfl, ?_⟩
  · simp only [workflowsUpdate, getCurrentUser, Except.bind, bind, hw, hown]
    simp
  · have hget2 := dbGet_dbReplace
      (applyWfPatch w
        { name := some "x", description := none, definition := none,
          is_active := none } now) hw
    simp only [workflowsGet, getCurrentUser, Except.bind, bind, hget2]
    simp [applyWfPatch, hown]
  · simpa [applyWfPatch] using hclock
  · intro args2
    constructor
    · simp only [workflowsUpdate, getCurrentUser, Except.bind, bind, hw, hown]
      simp
    · rfl

/-- Witness for C3: alice updates her own workflow's name at clock 10. -/
theorem workflow_update_roundtrip_witness :
    dbGet [(1, wfAlice)] 1 = some wfAlice ∧
    wfAlice.userId = some "alice" ∧
    wfAlice.updated_at < 10 ∧
    (∃ w2 : WorkflowRow,
      workflowsUpdate (some "alice") 10 [(1, wfAlice)] 1
          { name := some "x", description := none, definition := none,
            is_active := none }
        = .ok (dbReplace [(1, wfAlice)] 1 w2, 1) ∧
      workflowsGet (some "alice") (dbReplace [(1, wfAlice)] 1 w2) 1
        = .ok w2 ∧
      w2.name = "x" ∧
      wfAlice.updated_at < w2.updated_at ∧
      w2.definition = wfAlice.definition ∧
      (∀ args2 : WfUpdateArgs,
        workflowsUpdate (some "alice") 10 [(1, wfAlice)] 1 args2
          = .ok (dbReplace [(1, wfAlice)] 1
              (applyWfPatch wfAlice args2 10), 1) ∧
        (applyWfPatch wfAlice args2 10).updated_at = 10)) :=
  ⟨rfl, rfl, by decide,
   workflow_update_roundtrip "alice" 10 [(1, wfAlice)] 1 wfAlice rfl rfl
     (by decide)⟩

/-- C8: the workflow list query needs no authentication and applies no
ownership filter to anonymous callers — an unauthenticated call returns rows
of every owner, restricted only by the optional is_active filter, while an
authenticated caller only ever receives rows whose userId is their own. -/
theorem workflows_list_auth_filter
    (db : Db WorkflowRow) (args : WfListArgs) (w : WorkflowRow) :
    (args.is_active = none →
      (w ∈ workflowsList none db args ↔ w ∈ List.map Prod.snd db)) ∧
    (∀ b : Bool, args.is_active = some b →
      (w ∈ workflowsList none db args ↔
        w ∈ List.map Prod.snd db ∧ w.is_active = b)) ∧
    (∀ u : String, u ≠ "" → ∀ w2 ∈ workflowsList (some u) db args,
      w2.userId = some u) := by
  refine ⟨?_, ?_, ?_⟩
  · intro h
    simp [workflowsList, h, getCurrentUserOptional, jsTruthyStr, dbRowsDesc]
  · intro b hb
    simp [workflowsList, hb, getCurrentUserOptional, jsTruthyStr, dbRowsDesc,
      List.mem_filter, and_comm]
  · intro u hu w2 hmem
    have htr : jsTruthyStr (getCurrentUserOptional (some u)) = true := by
      simp [jsTruthyStr, getCurrentUserOptional, hu]
    cases hact : args.is_active with
    | none =>
      simp only [workflowsList, hact, htr, if_true] at hmem
      rcases List.mem_filter.mp hmem with ⟨_, hbeq⟩
      simpa [getCurrentUserOptional] using hbeq
    | some b =>
      simp only [workflowsList, hact, htr, if_true] at hmem
      rcases List.mem_filter.mp hmem with ⟨hmem2, _⟩
      rcases List.mem_filter.mp hmem2 with ⟨_, hbeq⟩
      simpa [getCurrentUserOptional] using hbeq

/-- Witness for C8: on a one-row table owned by alice, an anonymous list call
returns the row (no is_active filter), returns it again under the matching
is_active filter, and every row an authenticated alice receives carries her
userId. -/
theorem workflows_list_auth_filter_witness :
    ((none : Option Bool) = none →
      (wfAlice ∈ workflowsList none [(1, wfAlice)] { is_active := none } ↔
        wfAlice ∈ List.map Prod.snd [(1, wfAlice)])) ∧
    (∀ b : Bool, (none : Option Bool) = some b →
      (wfAlice ∈ workflowsList none [(1, wfAlice)] { is_active := none } ↔
        wfAlice ∈ List.map Prod.snd [(1, wfAlice)] ∧ wfAlice.is_active = b)) ∧
    (∀ u : String, u ≠ "" →
      ∀ w2 ∈ workflowsList (some u) [(1, wfAlice)] { is_active := none },
        w2.userId = some u) :=
  workflows_list_auth_filter [(1, wfAlice)] { is_active := none } wfAlice

/-- C9: the documents update mutation skips the ownership check exactly when
bypass_auth = true — with it, the update succeeds whatever the identities;
without it, access is denied precisely when the caller has an identity, the
document has an owner, and the two differ (empty-string subjects, which
never arise, are excluded by hypothesis). -/
theorem documents_update_bypass_auth
    (identity : Option String) (now : Nat) (db : Db DocumentRow) (id : Nat)
    (doc : DocumentRow) (args : DocUpdateArgs)
    (hd : dbGet db id = some doc)
    (hid : identity ≠ some "") (hodoc : doc.userId ≠ some "") :
    (documentsUpdate identity now db id args = .error .accessDenied ↔
      (args.bypass_auth ≠ some true ∧ identity.isSome = true ∧
        doc.userId.isSome = true ∧ doc.userId ≠ identity)) ∧
    (args.bypass_auth = some true →
      documentsUpdate identity now db id args
        = .ok (dbReplace db id (applyDocPatch doc args now), id)) := by
  have h1 : jsTruthyStr identity = identity.isSome := by
    cases identity with
    | none => rfl
    | some s =>
      have hs : s ≠ "" := fun h => hid (by rw [h])
      simp [jsTruthyStr, hs]
  have h2 : jsTruthyStr doc.userId = doc.userId.isSome := by
    cases hdu : doc.userId with
    | none => rfl
    | some s =>
      have hs : s ≠ "" := by
        intro h
        rw [h] at hdu
        exact hodoc hdu
      simp [jsTruthyStr, hs]
  have hiff : (!(args.bypass_auth == some true) &&
        jsTruthyStr (getCurrentUserOptional identity) &&
        jsTruthyStr doc.userId &&
        !(doc.userId == getCurrentUserOptional identity)) = true ↔
      (args.bypass_auth ≠ some true ∧ identity.isSome = true ∧
        doc.userId.isSome = true ∧ doc.userId ≠ identity) := by
    rw [getCurrentUserOptional] at *
    rw [h1, h2]
    simp [Bool.and_eq_true, and_assoc]
  constructor
  · cases hb : (!(args.bypass_auth == some true) &&
        jsTruthyStr (getCurrentUserOptional identity) &&
        jsTruthyStr doc.userId &&
        !(doc.userId == getCurrentUserOptional identity)) with
    | true =>
      rw [hb] at hiff
      simp only [documentsUpdate, hd, hb, if_true]
      simpa using hiff
    | false =>
      rw [hb] at hiff
      simp only [documentsUpdate, hd, hb]
      simp only [Bool.false_eq_true, if_false]
      constructor
      · intro h
        cases h
      · intro h
        exact absurd (hiff.mpr h) (by simp)
  · intro hbt
    have hb : (!(args.bypass_auth == some true) &&
        jsTruthyStr (getCurrentUserOptional identity) &&
        jsTruthyStr doc.userId &&
        !(doc.userId == getCurrentUserOptional identity)) = false := by
      simp [hbt]
    simp only [documentsUpdate, hd, hb]
    simp

/-- Witness for C9: alice (not the owner bob) updates bob's document with
bypass_auth = true; the access-denied characterization and the bypass success
both hold at this concrete input. -/
theorem documents_update_bypass_auth_witness :
    dbGet [(3, docBob)] 3 = some docBob ∧
    (some "alice" : Option String) ≠ some "" ∧
    docBob.userId ≠ some "" ∧
    ((documentsUpdate (some "alice") 7 [(3, docBob)] 3 docArgsBypass
        = .error .accessDenied ↔
      (docArgsBypass.bypass_auth ≠ some true ∧
        (some "alice" : Option String).isSome = true ∧
        docBob.userId.isSome = true ∧
        docBob.userId ≠ some "alice")) ∧
     (docArgsBypass.bypass_auth = some true →
      documentsUpdate (some "alice") 7 [(3, docBob)] 3 docArgsBypass
        = .ok (dbReplace [(3, docBob)] 3
            (applyDocPatch docBob docArgsBypass 7), 3))) :=
  ⟨rfl, by decide, by decide,
   documents_update_bypass_auth (some "alice") 7 [(3, docBob)] 3 docBob
     docArgsBypass rfl (by decide) (by decide)⟩
